import Mathlib

/-!
Verification of the per-key file synchronization queue (`FileSyncQueue` in
`src/hooks/useFileEdit.ts`, lines 127-328).

The class is single-threaded JavaScript whose only suspension points are the
`await` expressions inside `processQueue` (the commit call `updateFn`, the
propagate call `syncFn`, and the backoff timer).  We embed it as a state
machine:

* `queueEdit` is one atomic step.  In the source, the promise executor runs
  synchronously and, when the lane is idle, synchronously enters
  `processQueue` up to the first `await` (the first `updateFn` invocation),
  so that prefix belongs to the same atomic step.
* Each resumption of the suspended `processQueue` coroutine is an atomic
  step (`stepDrain`): it consumes the result of the pending `await` and runs
  until the next `await` or until the drain finishes.

Caller-supplied `updateFn`/`syncFn` pairs are modelled as `FnPair`: a pure
outcome function for each phase (outcome may depend on how many calls were
made so far, which models closures that fail a number of times and then
succeed) plus a numeric identity `fnId` so that the trace records *which*
pair was invoked.  The machine emits a trace of `SyncEvent`s: every commit
and propagate invocation, every backoff wait with its delay, and every
resolution/rejection of a caller's promise (promises are identified by the
`id` assigned to each queued item at submission).
-/


/-! ### Definitions -/

/-- Result of one invocation of a caller-supplied `updateFn` (commit phase):
either an authoritative version number or a thrown error message. -/
inductive CommitResult where
  | ok (version : Int)
  | err (msg : String)
deriving DecidableEq

/-- Result of one invocation of a caller-supplied `syncFn` (propagate phase). -/
inductive PropagateResult where
  | ok
  | err (msg : String)
deriving DecidableEq

/-- A caller-supplied pair of functions, as passed to `queueEdit`.
`commitFn path content k` is the outcome of the commit call when `k` commit
calls have been made before it (machine-wide); similarly `propagateFn` for
the propagate call, which also receives the committed version.  `fnId`
identifies the pair in the trace. -/
structure FnPair where
  fnId : Nat
  commitFn : String → String → Nat → CommitResult
  propagateFn : String → String → Int → Nat → PropagateResult

/-- `SyncOperation` from the source: `{ path, content, timestamp, retries }`.
The wall clock is not modelled, so `timestamp` is always 0. -/
structure SyncOperation where
  path : String
  content : String
  timestamp : Nat
  retries : Nat
deriving DecidableEq

/-- `QueueItem` from the source: an operation plus its pending promise.
The promise is represented by the numeric `id` assigned at submission;
resolutions appear in the event trace. -/
structure QueueItem where
  id : Nat
  operation : SyncOperation
deriving DecidableEq

/-- Observable events of a run. `resolve id success version` is the item's
promise resolving with `{ success, version }`; `reject id msg` is the
promise rejecting with an `Error` carrying `msg`. -/
inductive SyncEvent where
  | commitCall (id fnId : Nat) (path content : String)
  | propagateCall (id fnId : Nat) (path content : String) (version : Int)
  | backoff (path : String) (delay : Nat)
  | resolve (id : Nat) (success : Bool) (version : Option Int)
  | reject (id : Nat) (msg : String)
deriving DecidableEq

/-- The `await` at which the `processQueue` coroutine for a path is
suspended, carrying the value the `await` will produce. -/
inductive Pending where
  | commit (res : CommitResult)
  | propagate (version : Int) (res : PropagateResult)
  | backoff

/-- A suspended `processQueue` coroutine: the `updateFn`/`syncFn` captured
when the drain was started, and the pending `await`. -/
structure Drain where
  fns : FnPair
  pend : Pending

/-- Association-list model of a JS `Map` with string keys. -/
def mapGet {α : Type} (m : List (String × α)) (k : String) : Option α :=
  match m with
  | [] => none
  | (k1, v) :: rest => if k1 = k then some v else mapGet rest k

/-- `Map.set`: replace the value if the key is present, append otherwise. -/
def mapSet {α : Type} (m : List (String × α)) (k : String) (v : α) :
    List (String × α) :=
  match m with
  | [] => [(k, v)]
  | (k1, v1) :: rest =>
    if k1 = k then (k, v) :: rest else (k1, v1) :: mapSet rest k v

/-- `Map.delete`. -/
def mapDelete {α : Type} (m : List (String × α)) (k : String) :
    List (String × α) :=
  match m with
  | [] => []
  | (k1, v1) :: rest =>
    if k1 = k then mapDelete rest k else (k1, v1) :: mapDelete rest k

/-- State of the `FileSyncQueue` instance: the two maps of the source plus
the suspended drain coroutines and instrumentation counters (`nextId` for
promise identities, call counters feeding the `FnPair` outcome functions). -/
structure FileSyncQueue where
  queues : List (String × List QueueItem)
  processing : List (String × Bool)
  drains : List (String × Drain)
  nextId : Nat
  commitCalls : Nat
  propagateCalls : Nat

/-- `maxRetries` from the source. -/
def maxRetries : Nat := 3

/-- `baseRetryDelay` from the source (milliseconds). -/
def baseRetryDelay : Nat := 1000

/-- Top of the `while (queue.length > 0)` loop of `processQueue`: either the
queue is empty (mark not processing, clean up the empty queue, coroutine
ends) or the front item is peeked and its commit call (`updateFn`) is
issued, suspending the coroutine. -/
def drainLoopTop (s : FileSyncQueue) (path : String) (fns : FnPair) :
    FileSyncQueue × List SyncEvent :=
  match (mapGet s.queues path).getD [] with
  | [] =>
    let s1 := { s with processing := mapSet s.processing path false }
    ({ s1 with queues := mapDelete s1.queues path,
               processing := mapDelete s1.processing path,
               drains := mapDelete s1.drains path }, [])
  | item :: _ =>
    let res := fns.commitFn item.operation.path item.operation.content s.commitCalls
    ({ s with commitCalls := s.commitCalls + 1,
              drains := mapSet s.drains path { fns := fns, pend := Pending.commit res } },
     [SyncEvent.commitCall item.id fns.fnId item.operation.path item.operation.content])

/-- The `catch` block of `processQueue`: increment `retries`; if the retry
ceiling is reached, shift the item off the queue, reject its promise and
continue the loop; otherwise wait for the exponential backoff. -/
def handleFailure (s : FileSyncQueue) (path : String) (fns : FnPair)
    (item : QueueItem) (rest : List QueueItem) (msg : String) :
    FileSyncQueue × List SyncEvent :=
  let op1 := { item.operation with retries := item.operation.retries + 1 }
  let item1 := { item with operation := op1 }
  if maxRetries ≤ op1.retries then
    let s1 := { s with queues := mapSet s.queues path rest }
    let ev := SyncEvent.reject item1.id
      ("Failed to sync " ++ path ++ " after " ++ toString maxRetries ++
        " attempts: " ++ msg)
    let next := drainLoopTop s1 path fns
    (next.1, ev :: next.2)
  else
    let delay := baseRetryDelay * 2 ^ (op1.retries - 1)
    ({ s with queues := mapSet s.queues path (item1 :: rest),
              drains := mapSet s.drains path { fns := fns, pend := Pending.backoff } },
     [SyncEvent.backoff path delay])

/-- Entry into `processQueue` from `queueEdit` (the synchronous prefix up to
the first `await`): set the processing flag, bail out if the queue map has
no entry, otherwise run the loop top. -/
def startDrain (s : FileSyncQueue) (path : String) (fns : FnPair) :
    FileSyncQueue × List SyncEvent :=
  let s1 := { s with processing := mapSet s.processing path true }
  match mapGet s1.queues path with
  | none => ({ s1 with processing := mapSet s1.processing path false }, [])
  | some _ => drainLoopTop s1 path fns

/-- `queueEdit(path, content, updateFn, syncFn)` as one atomic step.
Returns the new state, the emitted events, and the promise id of the new
submission.  Follows the source line by line: get-or-create the queue,
deduplicate (splice(1) when processing, splice(0) otherwise, each removed
item resolving with `{ success: true, version: -1 }`), push the new item,
and start `processQueue` if the path is not processing. -/
def queueEdit (s : FileSyncQueue) (path content : String) (fns : FnPair) :
    FileSyncQueue × List SyncEvent × Nat :=
  let operation : SyncOperation :=
    { path := path, content := content, timestamp := 0, retries := 0 }
  let queue := (mapGet s.queues path).getD []
  let isProcessing := (mapGet s.processing path).getD false
  let dedup : List QueueItem × List SyncEvent :=
    if 0 < queue.length then
      if isProcessing then
        (queue.take 1,
         (queue.drop 1).map (fun it => SyncEvent.resolve it.id true (some (-1))))
      else
        ([], queue.map (fun it => SyncEvent.resolve it.id true (some (-1))))
    else (queue, [])
  let item : QueueItem := { id := s.nextId, operation := operation }
  let queue1 := dedup.1 ++ [item]
  let s1 := { s with queues := mapSet s.queues path queue1, nextId := s.nextId + 1 }
  if (mapGet s1.processing path).getD false then
    (s1, dedup.2, item.id)
  else
    let started := startDrain s1 path fns
    (started.1, dedup.2 ++ started.2, item.id)

/-- Resume the suspended `processQueue` coroutine for `path` (the pending
`await` has completed), running until the next suspension or until the
drain finishes.  A no-op if no coroutine is suspended for `path`. -/
def stepDrain (s : FileSyncQueue) (path : String) :
    FileSyncQueue × List SyncEvent :=
  match mapGet s.drains path with
  | none => (s, [])
  | some d =>
    match (mapGet s.queues path).getD [] with
    | [] => (s, [])
    | item :: rest =>
      match d.pend with
      | Pending.commit (CommitResult.ok version) =>
        let res := d.fns.propagateFn item.operation.path item.operation.content
          version s.propagateCalls
        ({ s with propagateCalls := s.propagateCalls + 1,
                  drains := mapSet s.drains path
                    { fns := d.fns, pend := Pending.propagate version res } },
         [SyncEvent.propagateCall item.id d.fns.fnId item.operation.path
            item.operation.content version])
      | Pending.commit (CommitResult.err msg) =>
        handleFailure s path d.fns item rest msg
      | Pending.propagate version PropagateResult.ok =>
        let s1 := { s with queues := mapSet s.queues path rest }
        let ev := SyncEvent.resolve item.id true (some version)
        let next := drainLoopTop s1 path d.fns
        (next.1, ev :: next.2)
      | Pending.propagate _ (PropagateResult.err msg) =>
        handleFailure s path d.fns item rest msg
      | Pending.backoff =>
        drainLoopTop s path d.fns

/-- One step of an interleaved run: a new submission, or the completion of
the pending `await` of one path's drain coroutine. -/
inductive Step where
  | submit (path content : String) (fns : FnPair)
  | resume (path : String)

/-- Apply one step. -/
def applyStep (s : FileSyncQueue) : Step → FileSyncQueue × List SyncEvent
  | Step.submit path content fns =>
    let r := queueEdit s path content fns
    (r.1, r.2.1)
  | Step.resume path => stepDrain s path

/-- The freshly constructed singleton instance: empty maps. -/
def initState : FileSyncQueue :=
  { queues := [], processing := [], drains := [],
    nextId := 0, commitCalls := 0, propagateCalls := 0 }

/-- Run a list of steps, concatenating the event traces in order. -/
def runSteps (s : FileSyncQueue) (steps : List Step) :
    FileSyncQueue × List SyncEvent :=
  match steps with
  | [] => (s, [])
  | st :: rest =>
    let r := applyStep s st
    let r2 := runSteps r.1 rest
    (r2.1, r.2 ++ r2.2)

/-- A state the queue can be in after some interleaving of submissions and
coroutine resumptions, starting from the fresh instance. -/
def Reachable (s : FileSyncQueue) : Prop :=
  ∃ steps : List Step, (runSteps initState steps).1 = s

/-- Return type of `getStatus` in the source. -/
structure QueueStatus where
  queuedFiles : List String
  processingFiles : List String
  totalPendingOperations : Nat
deriving DecidableEq

/-- `getStatus()` from the source: keys of the queue map, keys whose
processing flag is set, and the summed lengths of all queues. -/
def getStatus (s : FileSyncQueue) : QueueStatus :=
  { queuedFiles := s.queues.map Prod.fst,
    processingFiles := (s.processing.filter (fun e => e.2)).map Prod.fst,
    totalPendingOperations := (s.queues.map (fun e => e.2.length)).sum }

/-- All operations currently held in the lane of `path`. -/
def laneOps (s : FileSyncQueue) (path : String) : List QueueItem :=
  (mapGet s.queues path).getD []

/-- The in-flight operation of `path`, if any: while a drain coroutine
exists for the path, the front of its queue is being committed/propagated
(or waiting out a backoff between attempts). -/
def inFlightOps (s : FileSyncQueue) (path : String) : List QueueItem :=
  if (mapGet s.drains path).isSome then (laneOps s path).take 1 else []

/-- The waiting (not yet in-flight) operations of `path`. -/
def waitingOps (s : FileSyncQueue) (path : String) : List QueueItem :=
  if (mapGet s.drains path).isSome then (laneOps s path).drop 1 else laneOps s path

/-- A pair that always succeeds; the commit call made after `k` earlier
commit calls returns version `k + 1`. -/
def okFns (fid : Nat) : FnPair :=
  { fnId := fid,
    commitFn := fun _ _ k => CommitResult.ok (Int.ofNat k + 1),
    propagateFn := fun _ _ _ _ => PropagateResult.ok }

/-- A pair whose commit function fails on every invocation with message `m`. -/
def alwaysFailFns (m : String) (fid : Nat) : FnPair :=
  { fnId := fid,
    commitFn := fun _ _ _ => CommitResult.err m,
    propagateFn := fun _ _ _ _ => PropagateResult.ok }

/-- A pair whose commit function always succeeds but whose propagate
function fails on every invocation with message `m`. -/
def propFailFns (m : String) (fid : Nat) : FnPair :=
  { fnId := fid,
    commitFn := fun _ _ k => CommitResult.ok (Int.ofNat k + 1),
    propagateFn := fun _ _ _ _ => PropagateResult.err m }

/-- A pair whose commit function fails with message `m` on its first `r`
invocations and then succeeds with version `v`; propagation succeeds. -/
def failNFns (r : Nat) (m : String) (v : Int) (fid : Nat) : FnPair :=
  { fnId := fid,
    commitFn := fun _ _ k => if k < r then CommitResult.err m else CommitResult.ok v,
    propagateFn := fun _ _ _ _ => PropagateResult.ok }

/-- Invariant of every state between atomic steps: every lane in the queue
map is non-empty and holds at most two items (the in-flight front plus at
most one waiting item); a drain coroutine exists exactly for the keys of
the queue map; and the processing map holds exactly `true` for exactly
those keys. -/
structure QInv (s : FileSyncQueue) : Prop where
  lane_nonempty : ∀ k q, (k, q) ∈ s.queues → q ≠ []
  lane_len : ∀ k q, (k, q) ∈ s.queues → q.length ≤ 2
  queue_drain : ∀ k, (mapGet s.queues k).isSome = (mapGet s.drains k).isSome
  proc_drain : ∀ k, mapGet s.processing k =
      if (mapGet s.drains k).isSome then some true else none

/-- Recognizer for commit-call events. -/
def isCommitCall : SyncEvent → Bool
  | SyncEvent.commitCall _ _ _ _ => true
  | _ => false

/-- Recognizer for propagate-call events. -/
def isPropagateCall : SyncEvent → Bool
  | SyncEvent.propagateCall _ _ _ _ _ => true
  | _ => false

/-- The run of key "a" whose commit function always fails with "boom". -/
def c7runC : FileSyncQueue × List SyncEvent :=
  runSteps initState [Step.submit "a" "x" (alwaysFailFns "boom" 1),
    Step.resume "a", Step.resume "a", Step.resume "a", Step.resume "a",
    Step.resume "a"]

/-- The run of key "a" whose commit function always succeeds but whose
propagate function always fails with "boom". -/
def c7runP : FileSyncQueue × List SyncEvent :=
  runSteps initState [Step.submit "a" "x" (propFailFns "boom" 2),
    Step.resume "a", Step.resume "a", Step.resume "a", Step.resume "a",
    Step.resume "a", Step.resume "a", Step.resume "a", Step.resume "a"]

/-- The C1 scenario run: key "a" submitted with "v1" and, in the same
synchronous turn (before "v1"'s commit completes), submitted again with
"v2"; then drained to completion with no induced failures. -/
def c1run : FileSyncQueue × List SyncEvent :=
  runSteps initState [Step.submit "a" "v1" (okFns 1),
    Step.submit "a" "v2" (okFns 1), Step.resume "a", Step.resume "a",
    Step.resume "a", Step.resume "a"]

/-- The supersede resolutions of promise ids `m, m + 1, ..., m + n - 1`. -/
def supers (m n : Nat) : List SyncEvent :=
  (List.range n).map (fun j => SyncEvent.resolve (m + j) true (some (-1)))

/-- The state after a first submission of `p1` for `path` followed by `m`
further submissions, the last carrying payload `qm` (all with `okFns fid`):
the first operation is in flight with its commit call pending, the latest
submission is the sole waiting item, ids `1 .. m - 1` have been superseded. -/
def burstState (path p1 qm : String) (fid m : Nat) : FileSyncQueue :=
  { queues := [(path, [⟨0, ⟨path, p1, 0, 0⟩⟩, ⟨m, ⟨path, qm, 0, 0⟩⟩])],
    processing := [(path, true)],
    drains := [(path, ⟨okFns fid, Pending.commit (CommitResult.ok 1)⟩)],
    nextId := m + 1, commitCalls := 1, propagateCalls := 0 }

/-- Run in which "v1" is submitted with function pair 1 and, while it is in
flight, "v2" is submitted with function pair 2; resumed until "v2"'s commit
call is issued. -/
def c5run : FileSyncQueue × List SyncEvent :=
  runSteps initState [Step.submit "a" "v1" (okFns 1),
    Step.submit "a" "v2" (okFns 2), Step.resume "a", Step.resume "a"]

/-- Reachable state whose lane for "a" has "v1" in flight and "v2" waiting. -/
def c3state : FileSyncQueue :=
  (runSteps initState [Step.submit "a" "v1" (okFns 1),
    Step.submit "a" "v2" (okFns 2)]).1

/-- Reachable two-submission state used as the C6 witness. -/
def c6state : FileSyncQueue :=
  (runSteps initState [Step.submit "a" "v1" (okFns 1),
    Step.submit "a" "v2" (okFns 1)]).1

/-- Reachable state with one submission for "a" whose sole operation is in
flight (its commit call pending) and no waiting operation. -/
def c9state : FileSyncQueue :=
  (runSteps initState [Step.submit "a" "v" (okFns 1)]).1

/-- Lane with a waiting item but no processing flag: exercises the
nothing-processing dedup branch of `queueEdit`. -/
def c10state : FileSyncQueue :=
  { queues := [("a", [⟨0, ⟨"a", "v0", 0, 0⟩⟩])], processing := [],
    drains := [], nextId := 1, commitCalls := 0, propagateCalls := 0 }

/-! ### Theorems -/

theorem mapGet_set_self {α : Type} (m : List (String × α)) (k : String) (v : α) :
    mapGet (mapSet m k v) k = some v := by
  induction m with
  | nil => simp [mapSet, mapGet]
  | cons e rest ih =>
    obtain ⟨k1, v1⟩ := e
    by_cases h : k1 = k
    · simp [mapSet, mapGet, h]
    · simp [mapSet, mapGet, h, ih]

theorem mapGet_set_ne {α : Type} (m : List (String × α)) (k k1 : String) (v : α)
    (h : k1 ≠ k) : mapGet (mapSet m k v) k1 = mapGet m k1 := by
  induction m with
  | nil => simp [mapSet, mapGet, Ne.symm h]
  | cons e rest ih =>
    obtain ⟨k2, v2⟩ := e
    by_cases h2 : k2 = k
    · subst h2
      simp [mapSet, mapGet, Ne.symm h]
    · by_cases h3 : k2 = k1
      · simp [mapSet, mapGet, h2, h3, h]
      · simp [mapSet, mapGet, h2, h3, ih]

theorem mapGet_delete_self {α : Type} (m : List (String × α)) (k : String) :
    mapGet (mapDelete m k) k = none := by
  induction m with
  | nil => simp [mapDelete, mapGet]
  | cons e rest ih =>
    obtain ⟨k1, v1⟩ := e
    by_cases h : k1 = k
    · simp [mapDelete, h, ih]
    · simp [mapDelete, mapGet, h, ih]

theorem mapGet_delete_ne {α : Type} (m : List (String × α)) (k k1 : String)
    (h : k1 ≠ k) : mapGet (mapDelete m k) k1 = mapGet m k1 := by
  induction m with
  | nil => simp [mapDelete]
  | cons e rest ih =>
    obtain ⟨k2, v2⟩ := e
    by_cases h2 : k2 = k
    · subst h2
      simp [mapDelete, mapGet, Ne.symm h, ih]
    · by_cases h3 : k2 = k1
      · simp [mapDelete, mapGet, h2, h3, h]
      · simp [mapDelete, mapGet, h2, h3, ih]

theorem mem_mapSet {α : Type} (m : List (String × α)) (k : String) (v : α)
    (e : String × α) (he : e ∈ mapSet m k v) : e = (k, v) ∨ e ∈ m := by
  induction m with
  | nil => simpa [mapSet] using he
  | cons e1 rest ih =>
    obtain ⟨k1, v1⟩ := e1
    by_cases h : k1 = k
    · simp only [mapSet, if_pos h, List.mem_cons] at he
      rcases he with he | he
      · exact Or.inl he
      · exact Or.inr (List.mem_cons_of_mem _ he)
    · simp only [mapSet, if_neg h, List.mem_cons] at he
      rcases he with he | he
      · exact Or.inr (he ▸ List.mem_cons_self _ _)
      · rcases ih he with h2 | h2
        · exact Or.inl h2
        · exact Or.inr (List.mem_cons_of_mem _ h2)

theorem mem_mapDelete {α : Type} (m : List (String × α)) (k : String)
    (e : String × α) (he : e ∈ mapDelete m k) : e ∈ m ∧ e.1 ≠ k := by
  induction m with
  | nil => simp [mapDelete] at he
  | cons e1 rest ih =>
    obtain ⟨k1, v1⟩ := e1
    by_cases h : k1 = k
    · simp only [mapDelete, if_pos h] at he
      exact ⟨List.mem_cons_of_mem _ (ih he).1, (ih he).2⟩
    · simp only [mapDelete, if_neg h, List.mem_cons] at he
      rcases he with he | he
      · subst he
        exact ⟨List.mem_cons_self _ _, h⟩
      · exact ⟨List.mem_cons_of_mem _ (ih he).1, (ih he).2⟩

theorem mapGet_mem {α : Type} (m : List (String × α)) (k : String) (v : α)
    (h : mapGet m k = some v) : (k, v) ∈ m := by
  induction m with
  | nil => simp [mapGet] at h
  | cons e rest ih =>
    obtain ⟨k1, v1⟩ := e
    simp only [mapGet] at h
    by_cases h1 : k1 = k
    · rw [if_pos h1] at h
      injection h with h2
      subst h2
      subst h1
      exact List.mem_cons_self _ _
    · rw [if_neg h1] at h
      exact List.mem_cons_of_mem _ (ih h)

theorem mapGet_isSome_iff {α : Type} (m : List (String × α)) (k : String) :
    (mapGet m k).isSome = true ↔ k ∈ m.map Prod.fst := by
  induction m with
  | nil => simp [mapGet]
  | cons e rest ih =>
    obtain ⟨k1, v1⟩ := e
    simp only [mapGet, List.map_cons, List.mem_cons]
    by_cases h : k1 = k
    · subst h
      simp
    · rw [if_neg h, ih]
      constructor
      · exact fun hh => Or.inr hh
      · rintro (hh | hh)
        · exact absurd hh.symm h
        · exact hh

theorem mapDelete_mapSet {α : Type} (m : List (String × α)) (k : String) (v : α) :
    mapDelete (mapSet m k v) k = mapDelete m k := by
  induction m with
  | nil => simp [mapSet, mapDelete]
  | cons e rest ih =>
    obtain ⟨k1, v1⟩ := e
    by_cases h : k1 = k
    · simp [mapSet, mapDelete, h]
    · simp [mapSet, mapDelete, h, ih]

theorem drainLoopTop_empty (s : FileSyncQueue) (path : String) (fns : FnPair)
    (h : (mapGet s.queues path).getD [] = []) :
    drainLoopTop s path fns =
      ({ s with queues := mapDelete s.queues path,
                processing := mapDelete s.processing path,
                drains := mapDelete s.drains path }, []) := by
  simp [drainLoopTop, h, mapDelete_mapSet]

theorem drainLoopTop_cons (s : FileSyncQueue) (path : String) (fns : FnPair)
    (item : QueueItem) (rest : List QueueItem)
    (h : (mapGet s.queues path).getD [] = item :: rest) :
    drainLoopTop s path fns =
      ({ s with commitCalls := s.commitCalls + 1,
                drains := mapSet s.drains path
                  { fns := fns,
                    pend := Pending.commit (fns.commitFn item.operation.path
                      item.operation.content s.commitCalls) } },
       [SyncEvent.commitCall item.id fns.fnId item.operation.path
          item.operation.content]) := by
  simp [drainLoopTop, h]

theorem queueEdit_idle (s : FileSyncQueue) (path content : String) (fns : FnPair)
    (hq : mapGet s.queues path = none) (hp : mapGet s.processing path = none) :
    queueEdit s path content fns =
      ({ s with
          queues := mapSet s.queues path [⟨s.nextId, ⟨path, content, 0, 0⟩⟩],
          processing := mapSet s.processing path true,
          drains := mapSet s.drains path
            ⟨fns, Pending.commit (fns.commitFn path content s.commitCalls)⟩,
          nextId := s.nextId + 1,
          commitCalls := s.commitCalls + 1 },
       [SyncEvent.commitCall s.nextId fns.fnId path content], s.nextId) := by
  simp [queueEdit, startDrain, drainLoopTop, hq, hp, mapGet_set_self]

theorem queueEdit_busy (s : FileSyncQueue) (path content : String) (fns : FnPair)
    (a : QueueItem) (rest : List QueueItem)
    (hq : mapGet s.queues path = some (a :: rest))
    (hp : mapGet s.processing path = some true) :
    queueEdit s path content fns =
      ({ s with
          queues := mapSet s.queues path [a, ⟨s.nextId, ⟨path, content, 0, 0⟩⟩],
          nextId := s.nextId + 1 },
       rest.map (fun it => SyncEvent.resolve it.id true (some (-1))),
       s.nextId) := by
  simp [queueEdit, hq, hp]

theorem stepDrain_no_drain (s : FileSyncQueue) (path : String)
    (hd : mapGet s.drains path = none) : stepDrain s path = (s, []) := by
  simp [stepDrain, hd]

theorem stepDrain_commit_ok (s : FileSyncQueue) (path : String) (fns : FnPair)
    (v : Int) (item : QueueItem) (rest : List QueueItem)
    (hd : mapGet s.drains path = some ⟨fns, Pending.commit (CommitResult.ok v)⟩)
    (hq : mapGet s.queues path = some (item :: rest)) :
    stepDrain s path =
      ({ s with propagateCalls := s.propagateCalls + 1,
                drains := mapSet s.drains path
                  ⟨fns, Pending.propagate v (fns.propagateFn item.operation.path
                    item.operation.content v s.propagateCalls)⟩ },
       [SyncEvent.propagateCall item.id fns.fnId item.operation.path
          item.operation.content v]) := by
  simp [stepDrain, hd, hq]

theorem stepDrain_commit_err (s : FileSyncQueue) (path : String) (fns : FnPair)
    (msg : String) (item : QueueItem) (rest : List QueueItem)
    (hd : mapGet s.drains path = some ⟨fns, Pending.commit (CommitResult.err msg)⟩)
    (hq : mapGet s.queues path = some (item :: rest)) :
    stepDrain s path = handleFailure s path fns item rest msg := by
  simp [stepDrain, hd, hq]

theorem stepDrain_prop_ok (s : FileSyncQueue) (path : String) (fns : FnPair)
    (v : Int) (item : QueueItem) (rest : List QueueItem)
    (hd : mapGet s.drains path = some ⟨fns, Pending.propagate v PropagateResult.ok⟩)
    (hq : mapGet s.queues path = some (item :: rest)) :
    stepDrain s path =
      ((drainLoopTop { s with queues := mapSet s.queues path rest } path fns).1,
       SyncEvent.resolve item.id true (some v) ::
         (drainLoopTop { s with queues := mapSet s.queues path rest } path fns).2) := by
  simp [stepDrain, hd, hq]

theorem stepDrain_prop_err (s : FileSyncQueue) (path : String) (fns : FnPair)
    (v : Int) (msg : String) (item : QueueItem) (rest : List QueueItem)
    (hd : mapGet s.drains path =
      some ⟨fns, Pending.propagate v (PropagateResult.err msg)⟩)
    (hq : mapGet s.queues path = some (item :: rest)) :
    stepDrain s path = handleFailure s path fns item rest msg := by
  simp [stepDrain, hd, hq]

theorem stepDrain_backoff (s : FileSyncQueue) (path : String) (fns : FnPair)
    (item : QueueItem) (rest : List QueueItem)
    (hd : mapGet s.drains path = some ⟨fns, Pending.backoff⟩)
    (hq : mapGet s.queues path = some (item :: rest)) :
    stepDrain s path = drainLoopTop s path fns := by
  simp [stepDrain, hd, hq]

theorem handleFailure_exhausted (s : FileSyncQueue) (path : String)
    (fns : FnPair) (item : QueueItem) (rest : List QueueItem) (msg : String)
    (h3 : maxRetries ≤ item.operation.retries + 1) :
    handleFailure s path fns item rest msg =
      ((drainLoopTop { s with queues := mapSet s.queues path rest } path fns).1,
       SyncEvent.reject item.id
         ("Failed to sync " ++ path ++ " after " ++ toString maxRetries ++
           " attempts: " ++ msg) ::
         (drainLoopTop { s with queues := mapSet s.queues path rest } path fns).2) := by
  simp [handleFailure, h3]

theorem handleFailure_retry (s : FileSyncQueue) (path : String)
    (fns : FnPair) (item : QueueItem) (rest : List QueueItem) (msg : String)
    (h3 : item.operation.retries + 1 < maxRetries) :
    handleFailure s path fns item rest msg =
      ({ s with
          queues := mapSet s.queues path
            ({ item with operation :=
              { item.operation with retries := item.operation.retries + 1 } } :: rest),
          drains := mapSet s.drains path ⟨fns, Pending.backoff⟩ },
       [SyncEvent.backoff path
          (baseRetryDelay * 2 ^ (item.operation.retries + 1 - 1))]) := by
  simp [handleFailure, Nat.not_le.mpr h3]

theorem QInv.proc_none {s : FileSyncQueue} (h : QInv s) {k : String}
    (hd : mapGet s.drains k = none) : mapGet s.processing k = none := by
  have h1 := h.proc_drain k
  rw [hd] at h1
  simpa using h1

theorem QInv.queues_none {s : FileSyncQueue} (h : QInv s) {k : String}
    (hd : mapGet s.drains k = none) : mapGet s.queues k = none := by
  have h1 := h.queue_drain k
  rw [hd] at h1
  cases hmq : mapGet s.queues k with
  | none => rfl
  | some q => rw [hmq] at h1; simp at h1

theorem QInv.proc_true {s : FileSyncQueue} (h : QInv s) {k : String} {d : Drain}
    (hd : mapGet s.drains k = some d) : mapGet s.processing k = some true := by
  have h1 := h.proc_drain k
  rw [hd] at h1
  simpa using h1

theorem QInv.lane_cons {s : FileSyncQueue} (h : QInv s) {k : String} {d : Drain}
    (hd : mapGet s.drains k = some d) :
    ∃ item rest, mapGet s.queues k = some (item :: rest) := by
  have h1 := h.queue_drain k
  rw [hd] at h1
  cases hmq : mapGet s.queues k with
  | none => rw [hmq] at h1; simp at h1
  | some q =>
    have h2 : q ≠ [] := h.lane_nonempty k q (mapGet_mem _ _ _ hmq)
    obtain ⟨a, rest, rfl⟩ := List.exists_cons_of_ne_nil h2
    exact ⟨a, rest, rfl⟩

theorem inv_queueEdit (s : FileSyncQueue) (path content : String) (fns : FnPair)
    (h : QInv s) : QInv (queueEdit s path content fns).1 := by
  cases hd : mapGet s.drains path with
  | none =>
    have hp := h.proc_none hd
    have hq := h.queues_none hd
    rw [queueEdit_idle s path content fns hq hp]
    refine ⟨?_, ?_, ?_, ?_⟩
    · intro k q hkq
      rcases mem_mapSet _ _ _ _ hkq with he | he
      · simp only [Prod.mk.injEq] at he
        obtain ⟨rfl, rfl⟩ := he
        simp
      · exact h.lane_nonempty k q he
    · intro k q hkq
      rcases mem_mapSet _ _ _ _ hkq with he | he
      · simp only [Prod.mk.injEq] at he
        obtain ⟨rfl, rfl⟩ := he
        simp
      · exact h.lane_len k q he
    · intro k
      by_cases hk : k = path
      · subst hk
        simp [mapGet_set_self]
      · simp [mapGet_set_ne _ _ _ _ hk, h.queue_drain k]
    · intro k
      by_cases hk : k = path
      · subst hk
        simp [mapGet_set_self]
      · simp [mapGet_set_ne _ _ _ _ hk, h.proc_drain k]
  | some d =>
    have hp := h.proc_true hd
    obtain ⟨a, rest, hq⟩ := h.lane_cons hd
    rw [queueEdit_busy s path content fns a rest hq hp]
    refine ⟨?_, ?_, ?_, ?_⟩
    · intro k q hkq
      rcases mem_mapSet _ _ _ _ hkq with he | he
      · simp only [Prod.mk.injEq] at he
        obtain ⟨rfl, rfl⟩ := he
        simp
      · exact h.lane_nonempty k q he
    · intro k q hkq
      rcases mem_mapSet _ _ _ _ hkq with he | he
      · simp only [Prod.mk.injEq] at he
        obtain ⟨rfl, rfl⟩ := he
        simp
      · exact h.lane_len k q he
    · intro k
      by_cases hk : k = path
      · subst hk
        simp [mapGet_set_self, hd]
      · simp [mapGet_set_ne _ _ _ _ hk, h.queue_drain k]
    · intro k
      exact h.proc_drain k

theorem inv_drainLoopTop_cons (s : FileSyncQueue) (path : String) (fns : FnPair)
    (item : QueueItem) (rest : List QueueItem) (h : QInv s)
    (hq : mapGet s.queues path = some (item :: rest)) :
    QInv (drainLoopTop s path fns).1 := by
  rw [drainLoopTop_cons s path fns item rest (by rw [hq]; rfl)]
  refine ⟨h.lane_nonempty, h.lane_len, ?_, ?_⟩
  · intro k
    by_cases hk : k = path
    · subst hk
      simp [mapGet_set_self, hq]
    · simp [mapGet_set_ne _ _ _ _ hk, h.queue_drain k]
  · intro k
    by_cases hk : k = path
    · subst hk
      have hds : (mapGet s.drains k).isSome = true := by
        rw [← h.queue_drain k, hq]; rfl
      obtain ⟨d, hd⟩ := Option.isSome_iff_exists.mp hds
      simp [mapGet_set_self, h.proc_true hd]
    · simp [mapGet_set_ne _ _ _ _ hk, h.proc_drain k]

theorem inv_drainLoopTop_shift (s : FileSyncQueue) (path : String) (fns : FnPair)
    (rest : List QueueItem) (h : QInv s)
    (hlen : rest.length ≤ 1)
    (hds : (mapGet s.drains path).isSome = true) :
    QInv (drainLoopTop { s with queues := mapSet s.queues path rest } path fns).1 := by
  cases hrest : rest with
  | nil =>
    rw [drainLoopTop_empty _ _ _ (by simp [mapGet_set_self])]
    refine ⟨?_, ?_, ?_, ?_⟩
    · intro k q hkq
      obtain ⟨h1, h2⟩ := mem_mapDelete _ _ _ hkq
      rcases mem_mapSet _ _ _ _ h1 with he | he
      · exfalso
        apply h2
        simpa using congrArg Prod.fst he
      · exact h.lane_nonempty k q he
    · intro k q hkq
      obtain ⟨h1, h2⟩ := mem_mapDelete _ _ _ hkq
      rcases mem_mapSet _ _ _ _ h1 with he | he
      · exfalso
        apply h2
        simpa using congrArg Prod.fst he
      · exact h.lane_len k q he
    · intro k
      by_cases hk : k = path
      · subst hk
        simp [mapGet_delete_self]
      · rw [mapGet_delete_ne _ _ _ hk, mapGet_delete_ne _ _ _ hk,
            mapGet_set_ne _ _ _ _ hk]
        exact h.queue_drain k
    · intro k
      by_cases hk : k = path
      · subst hk
        simp [mapGet_delete_self]
      · rw [mapGet_delete_ne _ _ _ hk, mapGet_delete_ne _ _ _ hk]
        exact h.proc_drain k
  | cons w rest2 =>
    rw [drainLoopTop_cons _ _ _ w rest2 (by simp [mapGet_set_self])]
    refine ⟨?_, ?_, ?_, ?_⟩
    · intro k q hkq
      rcases mem_mapSet _ _ _ _ hkq with he | he
      · simp only [Prod.mk.injEq] at he
        obtain ⟨rfl, rfl⟩ := he
        simp
      · exact h.lane_nonempty k q he
    · intro k q hkq
      rcases mem_mapSet _ _ _ _ hkq with he | he
      · simp only [Prod.mk.injEq] at he
        obtain ⟨rfl, rfl⟩ := he
        have : (w :: rest2).length ≤ 1 := hrest ▸ hlen
        omega
      · exact h.lane_len k q he
    · intro k
      by_cases hk : k = path
      · subst hk
        simp [mapGet_set_self]
      · rw [mapGet_set_ne _ _ _ _ hk, mapGet_set_ne _ _ _ _ hk]
        exact h.queue_drain k
    · intro k
      by_cases hk : k = path
      · subst hk
        obtain ⟨d, hd⟩ := Option.isSome_iff_exists.mp hds
        simp [mapGet_set_self, h.proc_true hd]
      · rw [mapGet_set_ne _ _ _ _ hk]
        exact h.proc_drain k

theorem inv_handleFailure (s : FileSyncQueue) (path : String) (fns : FnPair)
    (item : QueueItem) (rest : List QueueItem) (msg : String)
    (h : QInv s) (hq : mapGet s.queues path = some (item :: rest)) :
    QInv (handleFailure s path fns item rest msg).1 := by
  have hds : (mapGet s.drains path).isSome = true := by
    rw [← h.queue_drain path, hq]; rfl
  have hlen : rest.length ≤ 1 := by
    have h2 := h.lane_len path (item :: rest) (mapGet_mem _ _ _ hq)
    simpa using h2
  by_cases h3 : maxRetries ≤ item.operation.retries + 1
  · rw [handleFailure_exhausted s path fns item rest msg h3]
    exact inv_drainLoopTop_shift s path fns rest h hlen hds
  · rw [handleFailure_retry s path fns item rest msg (Nat.not_le.mp h3)]
    refine ⟨?_, ?_, ?_, ?_⟩
    · intro k q hkq
      rcases mem_mapSet _ _ _ _ hkq with he | he
      · simp only [Prod.mk.injEq] at he
        obtain ⟨rfl, rfl⟩ := he
        simp
      · exact h.lane_nonempty k q he
    · intro k q hkq
      rcases mem_mapSet _ _ _ _ hkq with he | he
      · simp only [Prod.mk.injEq] at he
        obtain ⟨rfl, rfl⟩ := he
        simp only [List.length_cons]
        omega
      · exact h.lane_len k q he
    · intro k
      by_cases hk : k = path
      · subst hk
        simp [mapGet_set_self]
      · rw [mapGet_set_ne _ _ _ _ hk, mapGet_set_ne _ _ _ _ hk]
        exact h.queue_drain k
    · intro k
      by_cases hk : k = path
      · subst hk
        obtain ⟨d, hd⟩ := Option.isSome_iff_exists.mp hds
        simp [mapGet_set_self, h.proc_true hd]
      · rw [mapGet_set_ne _ _ _ _ hk]
        exact h.proc_drain k

theorem inv_stepDrain (s : FileSyncQueue) (path : String) (h : QInv s) :
    QInv (stepDrain s path).1 := by
  cases hd : mapGet s.drains path with
  | none => rw [stepDrain_no_drain s path hd]; exact h
  | some d =>
    obtain ⟨fns, pend⟩ := d
    obtain ⟨item, rest, hq⟩ := h.lane_cons hd
    have hds : (mapGet s.drains path).isSome = true := by rw [hd]; rfl
    have hlen : rest.length ≤ 1 := by
      have h2 := h.lane_len path (item :: rest) (mapGet_mem _ _ _ hq)
      simpa using h2
    cases pend with
    | commit res =>
      cases res with
      | ok v =>
        rw [stepDrain_commit_ok s path fns v item rest hd hq]
        refine ⟨h.lane_nonempty, h.lane_len, ?_, ?_⟩
        · intro k
          by_cases hk : k = path
          · subst hk
            simp [mapGet_set_self, hq]
          · rw [mapGet_set_ne _ _ _ _ hk]
            exact h.queue_drain k
        · intro k
          by_cases hk : k = path
          · subst hk
            simp [mapGet_set_self, h.proc_true hd]
          · rw [mapGet_set_ne _ _ _ _ hk]
            exact h.proc_drain k
      | err msg =>
        rw [stepDrain_commit_err s path fns msg item rest hd hq]
        exact inv_handleFailure s path fns item rest msg h hq
    | propagate v res =>
      cases res with
      | ok =>
        rw [stepDrain_prop_ok s path fns v item rest hd hq]
        exact inv_drainLoopTop_shift s path fns rest h hlen hds
      | err msg =>
        rw [stepDrain_prop_err s path fns v msg item rest hd hq]
        exact inv_handleFailure s path fns item rest msg h hq
    | backoff =>
      rw [stepDrain_backoff s path fns item rest hd hq]
      exact inv_drainLoopTop_cons s path fns item rest h hq

theorem inv_initState : QInv initState := by
  refine ⟨?_, ?_, ?_, ?_⟩
  · intro k q hkq
    simp [initState] at hkq
  · intro k q hkq
    simp [initState] at hkq
  · intro k
    simp [initState, mapGet]
  · intro k
    simp [initState, mapGet]

theorem inv_applyStep (s : FileSyncQueue) (st : Step) (h : QInv s) :
    QInv (applyStep s st).1 := by
  cases st with
  | submit path content fns => exact inv_queueEdit s path content fns h
  | resume path => exact inv_stepDrain s path h

theorem inv_runSteps (s : FileSyncQueue) (steps : List Step) (h : QInv s) :
    QInv (runSteps s steps).1 := by
  induction steps generalizing s with
  | nil => exact h
  | cons st rest ih => exact ih (applyStep s st).1 (inv_applyStep s st h)

/-- Every reachable state satisfies the invariant. -/
theorem reachable_inv (s : FileSyncQueue) (h : Reachable s) : QInv s := by
  obtain ⟨steps, hsteps⟩ := h
  exact hsteps ▸ inv_runSteps initState steps inv_initState

/-- C2 (confirmed).  A submission whose commit function fails on every
invocation: the drain makes exactly 3 commit attempts (the trace holds
exactly three `commitCall` events, with backoffs between them), the
promise is rejected with the terminal retries-exhausted error, and no
`propagateCall` ever occurs for the operation. -/
theorem c2_retries_exhausted (path content m : String) (fid : Nat) :
    (runSteps initState [Step.submit path content (alwaysFailFns m fid),
        Step.resume path, Step.resume path, Step.resume path,
        Step.resume path, Step.resume path]).2 =
      [SyncEvent.commitCall 0 fid path content,
       SyncEvent.backoff path 1000,
       SyncEvent.commitCall 0 fid path content,
       SyncEvent.backoff path 2000,
       SyncEvent.commitCall 0 fid path content,
       SyncEvent.reject 0 ("Failed to sync " ++ path ++ " after " ++
         toString maxRetries ++ " attempts: " ++ m)] ∧
    ∀ ev ∈ (runSteps initState [Step.submit path content (alwaysFailFns m fid),
        Step.resume path, Step.resume path, Step.resume path,
        Step.resume path, Step.resume path]).2,
      ∀ i f p c v, ev ≠ SyncEvent.propagateCall i f p c v := by
  have htrace : (runSteps initState [Step.submit path content (alwaysFailFns m fid),
      Step.resume path, Step.resume path, Step.resume path,
      Step.resume path, Step.resume path]).2 =
      [SyncEvent.commitCall 0 fid path content,
       SyncEvent.backoff path 1000,
       SyncEvent.commitCall 0 fid path content,
       SyncEvent.backoff path 2000,
       SyncEvent.commitCall 0 fid path content,
       SyncEvent.reject 0 ("Failed to sync " ++ path ++ " after " ++
         toString maxRetries ++ " attempts: " ++ m)] := by
    simp [runSteps, applyStep, queueEdit, startDrain, drainLoopTop, stepDrain,
      handleFailure, alwaysFailFns, mapGet, mapSet, mapDelete, initState,
      maxRetries, baseRetryDelay]
  refine ⟨htrace, ?_⟩
  rw [htrace]
  intro ev hmem i f p c v
  simp only [List.mem_cons, List.not_mem_nil, or_false] at hmem
  rcases hmem with rfl | rfl | rfl | rfl | rfl | rfl <;> simp

set_option maxHeartbeats 1600000 in
/-- C4 (confirmed).  A submission whose commit function fails exactly `r`
times (`r < 3`) and then succeeds, with succeeding propagation: the run
makes `r + 1` commit attempts; before the retry following the `a`-th
failure the drainer waits `baseRetryDelay * 2 ^ (a - 1)` (the events list
the delays `baseRetryDelay * 2 ^ 0, ..., baseRetryDelay * 2 ^ (r - 1)`, so
the intervals increase); the propagate function is called exactly once,
after the successful commit; and the promise resolves successfully with
the committed version. -/
theorem c4_retry_backoff (path content m : String) (v : Int) (fid r : Nat)
    (hr : r < 3) :
    (runSteps initState (Step.submit path content (failNFns r m v fid) ::
        List.replicate (2 * r + 2) (Step.resume path))).2 =
      SyncEvent.commitCall 0 fid path content ::
        ((List.range r).flatMap (fun a =>
          [SyncEvent.backoff path (baseRetryDelay * 2 ^ a),
           SyncEvent.commitCall 0 fid path content]) ++
         [SyncEvent.propagateCall 0 fid path content v,
          SyncEvent.resolve 0 true (some v)]) := by
  interval_cases r
  · rw [show (2 * 0 + 2 : Nat) = 2 from rfl,
      show List.replicate 2 (Step.resume path) =
        [Step.resume path, Step.resume path] from rfl,
      show List.range 0 = ([] : List Nat) from rfl]
    simp [runSteps, applyStep, queueEdit, startDrain, drainLoopTop, stepDrain,
      handleFailure, failNFns, mapGet, mapSet, mapDelete, initState,
      maxRetries, baseRetryDelay]
  · rw [show (2 * 1 + 2 : Nat) = 4 from rfl,
      show List.replicate 4 (Step.resume path) =
        [Step.resume path, Step.resume path, Step.resume path,
         Step.resume path] from rfl,
      show List.range 1 = [0] from rfl]
    simp [runSteps, applyStep, queueEdit, startDrain, drainLoopTop, stepDrain,
      handleFailure, failNFns, mapGet, mapSet, mapDelete, initState,
      maxRetries, baseRetryDelay]
  · rw [show (2 * 2 + 2 : Nat) = 6 from rfl,
      show List.replicate 6 (Step.resume path) =
        [Step.resume path, Step.resume path, Step.resume path,
         Step.resume path, Step.resume path, Step.resume path] from rfl,
      show List.range 2 = [0, 1] from rfl]
    simp [runSteps, applyStep, queueEdit, startDrain, drainLoopTop, stepDrain,
      handleFailure, failNFns, mapGet, mapSet, mapDelete, initState,
      maxRetries, baseRetryDelay]

/-- Witness for C4 at `r = 1` with concrete strings. -/
theorem c4_witness : 1 < 3 ∧
    (runSteps initState (Step.submit "a" "c" (failNFns 1 "boom" 7 5) ::
        List.replicate (2 * 1 + 2) (Step.resume "a"))).2 =
      SyncEvent.commitCall 0 5 "a" "c" ::
        ((List.range 1).flatMap (fun a =>
          [SyncEvent.backoff "a" (baseRetryDelay * 2 ^ a),
           SyncEvent.commitCall 0 5 "a" "c"]) ++
         [SyncEvent.propagateCall 0 5 "a" "c" 7,
          SyncEvent.resolve 0 true (some 7)]) :=
  ⟨by decide, c4_retry_backoff "a" "c" "boom" 7 5 1 (by decide)⟩

/-- C7 counterexample.  A run whose three failures are all commit-phase
failures and a run whose three failures are all propagate-phase failures
(the first makes no propagate call at all, the second makes three) reject
their promises with the *identical* terminal error, so the terminal error
does not make a commit-phase failure distinguishable from a propagate-phase
failure, contrary to the claim. -/
theorem c7_counterexample :
    SyncEvent.reject 0 "Failed to sync a after 3 attempts: boom" ∈ c7runC.2 ∧
    SyncEvent.reject 0 "Failed to sync a after 3 attempts: boom" ∈ c7runP.2 ∧
    c7runC.2.filter isPropagateCall = [] ∧
    (c7runP.2.filter isPropagateCall).length = 3 := by decide

/-- `runSteps` splits over list append. -/
theorem runSteps_append (s : FileSyncQueue) (l1 l2 : List Step) :
    runSteps s (l1 ++ l2) =
      ((runSteps (runSteps s l1).1 l2).1,
       (runSteps s l1).2 ++ (runSteps (runSteps s l1).1 l2).2) := by
  induction l1 generalizing s with
  | nil => simp [runSteps]
  | cons st rest ih => simp [runSteps, ih]

/-- C7 amended.  When retries are exhausted the promise is rejected with a
terminal error describing the key, the number of attempts and the message
of the underlying cause — and nothing else: a run of all-commit failures
and a run of all-propagate failures with the same cause message produce the
same terminal error (the phase is not recorded). -/
theorem c7_amended_terminal_error (path content m : String) (fid1 fid2 : Nat) :
    SyncEvent.reject 0 ("Failed to sync " ++ path ++ " after " ++
        toString maxRetries ++ " attempts: " ++ m) ∈
      (runSteps initState [Step.submit path content (alwaysFailFns m fid1),
        Step.resume path, Step.resume path, Step.resume path,
        Step.resume path, Step.resume path]).2 ∧
    SyncEvent.reject 0 ("Failed to sync " ++ path ++ " after " ++
        toString maxRetries ++ " attempts: " ++ m) ∈
      (runSteps initState [Step.submit path content (propFailFns m fid2),
        Step.resume path, Step.resume path, Step.resume path,
        Step.resume path, Step.resume path, Step.resume path,
        Step.resume path, Step.resume path]).2 := by
  constructor
  · simp [runSteps, applyStep, queueEdit, startDrain, drainLoopTop, stepDrain,
      handleFailure, alwaysFailFns, mapGet, mapSet, mapDelete, initState,
      maxRetries, baseRetryDelay]
  · rw [show ([Step.submit path content (propFailFns m fid2),
        Step.resume path, Step.resume path, Step.resume path,
        Step.resume path, Step.resume path, Step.resume path,
        Step.resume path, Step.resume path] : List Step) =
      [Step.submit path content (propFailFns m fid2),
        Step.resume path, Step.resume path] ++
      ([Step.resume path, Step.resume path, Step.resume path] ++
       [Step.resume path, Step.resume path, Step.resume path]) from rfl,
      runSteps_append, runSteps_append]
    have h1 : runSteps initState [Step.submit path content (propFailFns m fid2),
        Step.resume path, Step.resume path] =
        ({ queues := [(path, [⟨0, ⟨path, content, 0, 1⟩⟩])],
           processing := [(path, true)],
           drains := [(path, ⟨propFailFns m fid2, Pending.backoff⟩)],
           nextId := 1, commitCalls := 1, propagateCalls := 1 },
         [SyncEvent.commitCall 0 fid2 path content,
          SyncEvent.propagateCall 0 fid2 path content 1,
          SyncEvent.backoff path 1000]) := by
      simp [runSteps, applyStep, queueEdit, startDrain, drainLoopTop, stepDrain,
        handleFailure, propFailFns, mapGet, mapSet, mapDelete, initState,
        maxRetries, baseRetryDelay]
    have h2 : runSteps
        ({ queues := [(path, [⟨0, ⟨path, content, 0, 1⟩⟩])],
           processing := [(path, true)],
           drains := [(path, ⟨propFailFns m fid2, Pending.backoff⟩)],
           nextId := 1, commitCalls := 1, propagateCalls := 1 } : FileSyncQueue)
        [Step.resume path, Step.resume path, Step.resume path] =
        ({ queues := [(path, [⟨0, ⟨path, content, 0, 2⟩⟩])],
           processing := [(path, true)],
           drains := [(path, ⟨propFailFns m fid2, Pending.backoff⟩)],
           nextId := 1, commitCalls := 2, propagateCalls := 2 },
         [SyncEvent.commitCall 0 fid2 path content,
          SyncEvent.propagateCall 0 fid2 path content 2,
          SyncEvent.backoff path 2000]) := by
      simp [runSteps, applyStep, queueEdit, startDrain, drainLoopTop, stepDrain,
        handleFailure, propFailFns, mapGet, mapSet, mapDelete, initState,
        maxRetries, baseRetryDelay]
    have h3 : runSteps
        ({ queues := [(path, [⟨0, ⟨path, content, 0, 2⟩⟩])],
           processing := [(path, true)],
           drains := [(path, ⟨propFailFns m fid2, Pending.backoff⟩)],
           nextId := 1, commitCalls := 2, propagateCalls := 2 } : FileSyncQueue)
        [Step.resume path, Step.resume path, Step.resume path] =
        ({ queues := [], processing := [], drains := [],
           nextId := 1, commitCalls := 3, propagateCalls := 3 },
         [SyncEvent.commitCall 0 fid2 path content,
          SyncEvent.propagateCall 0 fid2 path content 3,
          SyncEvent.reject 0 ("Failed to sync " ++ path ++ " after " ++
            toString maxRetries ++ " attempts: " ++ m)]) := by
      simp [runSteps, applyStep, queueEdit, startDrain, drainLoopTop, stepDrain,
        handleFailure, propFailFns, mapGet, mapSet, mapDelete, initState,
        maxRetries, baseRetryDelay]
    rw [h1]
    simp only [h2, h3, List.mem_append, List.mem_cons]
    simp

/-- C1 counterexample.  In the scenario of the claim, two commit+propagate
pairs execute (not exactly one), and "v1"'s promise resolves with the real
committed version 1, not with the superseded sentinel: submitting "v1" to
an idle lane takes it in flight synchronously, so a second submission in
the same turn can never supersede it. -/
theorem c1_counterexample :
    (c1run.2.filter isCommitCall).length = 2 ∧
    (c1run.2.filter isPropagateCall).length = 2 ∧
    SyncEvent.resolve 0 true (some 1) ∈ c1run.2 ∧
    SyncEvent.resolve 0 true (some (-1)) ∉ c1run.2 := by decide

theorem supers_succ (m n : Nat) :
    supers m (n + 1) =
      SyncEvent.resolve m true (some (-1)) :: supers (m + 1) n := by
  unfold supers
  rw [List.range_succ_eq_map]
  simp only [List.map_cons, List.map_map, Nat.add_zero]
  have hfun : ((fun j => SyncEvent.resolve (m + j) true (some (-1))) ∘ Nat.succ) =
      (fun j => SyncEvent.resolve (m + 1 + j) true (some (-1))) := by
    funext j
    simp only [Function.comp_apply]
    congr 1
    omega
  rw [hfun]

theorem burst_start (path p1 q1 : String) (fid : Nat) :
    runSteps initState [Step.submit path p1 (okFns fid),
        Step.submit path q1 (okFns fid)] =
      (burstState path p1 q1 fid 1, [SyncEvent.commitCall 0 fid path p1]) := by
  simp [runSteps, applyStep, queueEdit, startDrain, drainLoopTop, okFns,
    mapGet, mapSet, initState, burstState]

theorem burst_step (path p1 qm q2 : String) (fid m : Nat) :
    applyStep (burstState path p1 qm fid m) (Step.submit path q2 (okFns fid)) =
      (burstState path p1 q2 fid (m + 1),
       [SyncEvent.resolve m true (some (-1))]) := by
  simp [applyStep, queueEdit, burstState, mapGet, mapSet]

theorem burst_many (path p1 : String) (fid : Nat) (rest : List String) :
    ∀ (m : Nat) (qm : String),
      runSteps (burstState path p1 qm fid m)
        (rest.map (fun q => Step.submit path q (okFns fid))) =
      (burstState path p1 (rest.getLastD qm) fid (m + rest.length),
       supers m rest.length) := by
  induction rest with
  | nil => intro m qm; simp [runSteps, supers]
  | cons q2 rest2 ih =>
    intro m qm
    simp only [List.map_cons, runSteps, burst_step, supers_succ,
      List.getLastD_cons, List.length_cons]
    rw [ih (m + 1) q2]
    have harith : m + 1 + rest2.length = m + (rest2.length + 1) := by omega
    rw [harith]
    simp

theorem burst_drain (path p1 qm : String) (fid m : Nat) :
    runSteps (burstState path p1 qm fid m)
      [Step.resume path, Step.resume path, Step.resume path,
       Step.resume path] =
      ({ queues := [], processing := [], drains := [],
         nextId := m + 1, commitCalls := 2, propagateCalls := 2 },
       [SyncEvent.propagateCall 0 fid path p1 1,
        SyncEvent.resolve 0 true (some 1),
        SyncEvent.commitCall m fid path qm,
        SyncEvent.propagateCall m fid path qm 2,
        SyncEvent.resolve m true (some 2)]) := by
  simp [runSteps, applyStep, stepDrain, drainLoopTop, handleFailure,
    burstState, okFns, mapGet, mapSet, mapDelete]

/-- C1 amended.  For every burst of `N ≥ 2` submissions to the same key in
one synchronous turn starting from an idle lane (first payload `p1`, then
`q1`, then `rest`), with no induced failures: the *first* submission is
taken in flight synchronously and completes its own commit+propagate pair,
the intermediate submissions (ids `1 .. N - 2`) resolve with the superseded
sentinel because they were still waiting when the next submission arrived,
and exactly one further commit+propagate pair executes, carrying the
payload of the *last* submission — so exactly two pairs execute in total,
with the first and last payloads, and the lane is removed at the end. -/
theorem c1_amended_burst (path p1 q1 : String) (rest : List String) (fid : Nat) :
    runSteps initState
      (Step.submit path p1 (okFns fid) :: Step.submit path q1 (okFns fid) ::
        (rest.map (fun q => Step.submit path q (okFns fid)) ++
          [Step.resume path, Step.resume path, Step.resume path,
           Step.resume path])) =
      ({ queues := [], processing := [], drains := [],
         nextId := rest.length + 2, commitCalls := 2, propagateCalls := 2 },
       SyncEvent.commitCall 0 fid path p1 ::
         (supers 1 rest.length ++
          [SyncEvent.propagateCall 0 fid path p1 1,
           SyncEvent.resolve 0 true (some 1),
           SyncEvent.commitCall (rest.length + 1) fid path (rest.getLastD q1),
           SyncEvent.propagateCall (rest.length + 1) fid path (rest.getLastD q1) 2,
           SyncEvent.resolve (rest.length + 1) true (some 2)])) := by
  rw [show (Step.submit path p1 (okFns fid) :: Step.submit path q1 (okFns fid) ::
        (rest.map (fun q => Step.submit path q (okFns fid)) ++
          [Step.resume path, Step.resume path, Step.resume path,
           Step.resume path])) =
      ([Step.submit path p1 (okFns fid), Step.submit path q1 (okFns fid)] ++
        (rest.map (fun q => Step.submit path q (okFns fid)) ++
          [Step.resume path, Step.resume path, Step.resume path,
           Step.resume path])) from rfl]
  rw [runSteps_append, runSteps_append]
  simp only [burst_start, burst_many, burst_drain]
  have h1 : 1 + rest.length = rest.length + 1 := by omega
  rw [h1]
  simp [List.append_assoc, Nat.add_assoc]

/-- C5 counterexample.  The operation submitted with function pair 2 is
committed using function pair 1 — the pair captured when the drain was
started by the first submission — not the pair supplied with its own
submit call, contrary to the claim. -/
theorem c5_counterexample :
    SyncEvent.commitCall 1 1 "a" "v2" ∈ c5run.2 ∧
    SyncEvent.commitCall 1 2 "a" "v2" ∉ c5run.2 := by decide

/-- C5 amended.  Every commit and propagate call of a drain is made with
the function pair supplied by the submission that *started* that drain:
in a run where the second submission (pair `fid2`) lands in a lane already
being drained with pair `fid1`, all four calls — including both phases of
the second operation — carry `fid1`; the supplied pair of a submission is
used only when that submission itself starts the drain. -/
theorem c5_amended_drain_fns (path p1 p2 : String) (fid1 fid2 : Nat) :
    (runSteps initState [Step.submit path p1 (okFns fid1),
        Step.submit path p2 (okFns fid2), Step.resume path, Step.resume path,
        Step.resume path, Step.resume path]).2 =
      [SyncEvent.commitCall 0 fid1 path p1,
       SyncEvent.propagateCall 0 fid1 path p1 1,
       SyncEvent.resolve 0 true (some 1),
       SyncEvent.commitCall 1 fid1 path p2,
       SyncEvent.propagateCall 1 fid1 path p2 2,
       SyncEvent.resolve 1 true (some 2)] := by
  simp [runSteps, applyStep, queueEdit, startDrain, drainLoopTop, stepDrain,
    handleFailure, okFns, mapGet, mapSet, mapDelete, initState]

/-- C3 (confirmed).  A submit call on a key whose lane holds exactly one
waiting (not yet in-flight) operation `b`: the call emits exactly one
event, resolving `b`'s promise immediately with the superseded success
outcome `{ success := true, version := -1 }` (a resolution, not a
rejection, so the caller does not see an error), and the newly submitted
operation becomes the lane's sole waiting entry. -/
theorem c3_supersede_waiting (s : FileSyncQueue) (path content : String)
    (fns : FnPair) (b : QueueItem) (hs : Reachable s)
    (hw : waitingOps s path = [b]) :
    (queueEdit s path content fns).2.1 =
      [SyncEvent.resolve b.id true (some (-1))] ∧
    waitingOps (queueEdit s path content fns).1 path =
      [⟨s.nextId, ⟨path, content, 0, 0⟩⟩] := by
  have h := reachable_inv s hs
  cases hd : mapGet s.drains path with
  | none =>
    exfalso
    have hqn := h.queues_none hd
    rw [waitingOps, if_neg (by simp [hd]), laneOps, hqn] at hw
    simp at hw
  | some d =>
    obtain ⟨a, rest, hq⟩ := h.lane_cons hd
    have hrest : rest = [b] := by
      rw [waitingOps, if_pos (by simp [hd]), laneOps, hq] at hw
      simpa using hw
    subst hrest
    rw [queueEdit_busy s path content fns a [b] hq (h.proc_true hd)]
    refine ⟨rfl, ?_⟩
    simp [waitingOps, laneOps, hd, mapGet_set_self]

/-- Witness for C3: submitting "v3" supersedes the waiting "v2". -/
theorem c3_witness :
    waitingOps c3state "a" = [⟨1, ⟨"a", "v2", 0, 0⟩⟩] ∧
    ((queueEdit c3state "a" "v3" (okFns 3)).2.1 =
      [SyncEvent.resolve 1 true (some (-1))] ∧
     waitingOps (queueEdit c3state "a" "v3" (okFns 3)).1 "a" =
      [⟨c3state.nextId, ⟨"a", "v3", 0, 0⟩⟩]) :=
  ⟨by decide,
   c3_supersede_waiting c3state "a" "v3" (okFns 3) ⟨1, ⟨"a", "v2", 0, 0⟩⟩
     ⟨[Step.submit "a" "v1" (okFns 1), Step.submit "a" "v2" (okFns 2)], rfl⟩
     (by decide)⟩

/-- C6 (confirmed).  In every reachable state and for every key, at most
one operation is in flight and at most one is waiting, and the lane is
exactly the in-flight part followed by the waiting part — the per-key queue
never holds more than one in-flight entry plus one waiting entry. -/
theorem c6_single_flight (s : FileSyncQueue) (path : String)
    (hs : Reachable s) :
    (inFlightOps s path).length ≤ 1 ∧ (waitingOps s path).length ≤ 1 ∧
    laneOps s path = inFlightOps s path ++ waitingOps s path := by
  have h := reachable_inv s hs
  refine ⟨?_, ?_, ?_⟩
  · rw [inFlightOps]
    by_cases hd : (mapGet s.drains path).isSome = true
    · rw [if_pos hd]
      simp only [List.length_take]
      omega
    · rw [if_neg hd]
      simp
  · rw [waitingOps]
    by_cases hd : (mapGet s.drains path).isSome = true
    · rw [if_pos hd]
      obtain ⟨d, hdd⟩ := Option.isSome_iff_exists.mp hd
      obtain ⟨item, rest, hq⟩ := h.lane_cons hdd
      have hlen := h.lane_len path _ (mapGet_mem _ _ _ hq)
      rw [laneOps, hq]
      simp only [List.length_cons] at hlen
      simp only [Option.getD_some, List.length_drop, List.length_cons]
      omega
    · rw [if_neg hd]
      have hdn : mapGet s.drains path = none :=
        Option.not_isSome_iff_eq_none.mp (by simpa using hd)
      rw [laneOps, h.queues_none hdn]
      simp
  · rw [waitingOps, inFlightOps]
    by_cases hd : (mapGet s.drains path).isSome = true
    · rw [if_pos hd, if_pos hd]
      exact (List.take_append_drop 1 _).symm
    · rw [if_neg hd, if_neg hd]
      simp

/-- Witness for C6 at a state with one in-flight and one waiting item. -/
theorem c6_witness :
    (inFlightOps c6state "a").length ≤ 1 ∧
    (waitingOps c6state "a").length ≤ 1 ∧
    laneOps c6state "a" = inFlightOps c6state "a" ++ waitingOps c6state "a" :=
  c6_single_flight c6state "a"
    ⟨[Step.submit "a" "v1" (okFns 1), Step.submit "a" "v2" (okFns 1)], rfl⟩

/-- C8 (confirmed).  In every reachable state, an entry for a key exists in
the queue map, the processing map or the drain coroutines exactly when the
key has at least one pending (waiting or in-flight) operation — lanes are
deleted as soon as the drain loop finds them empty, so no entry persists
for a key with no pending work; and a submission always (re)creates the
key's lane entry. -/
theorem c8_lane_lifecycle :
    (∀ s : FileSyncQueue, Reachable s → ∀ path : String,
      (mapGet s.queues path ≠ none ∨ mapGet s.processing path ≠ none ∨
        mapGet s.drains path ≠ none) ↔ laneOps s path ≠ []) ∧
    (∀ s : FileSyncQueue, Reachable s →
      ∀ (path content : String) (fns : FnPair),
      mapGet (queueEdit s path content fns).1.queues path ≠ none) := by
  constructor
  · intro s hs path
    have h := reachable_inv s hs
    cases hq : mapGet s.queues path with
    | none =>
      have hdn : mapGet s.drains path = none := by
        have h1 := h.queue_drain path
        rw [hq] at h1
        cases hdd : mapGet s.drains path with
        | none => rfl
        | some d => rw [hdd] at h1; simp at h1
      have hpn := h.proc_none hdn
      simp [laneOps, hq, hdn, hpn]
    | some q =>
      have hqn : q ≠ [] := h.lane_nonempty path q (mapGet_mem _ _ _ hq)
      simp [laneOps, hq, hqn]
  · intro s hs path content fns
    have h := reachable_inv s hs
    cases hd : mapGet s.drains path with
    | none =>
      rw [queueEdit_idle s path content fns (h.queues_none hd) (h.proc_none hd)]
      simp [mapGet_set_self]
    | some d =>
      obtain ⟨a, rest, hq⟩ := h.lane_cons hd
      rw [queueEdit_busy s path content fns a rest hq (h.proc_true hd)]
      simp [mapGet_set_self]

/-- Witness for C8 at the empty state and a first submission. -/
theorem c8_witness :
    ((mapGet initState.queues "a" ≠ none ∨
      mapGet initState.processing "a" ≠ none ∨
      mapGet initState.drains "a" ≠ none) ↔ laneOps initState "a" ≠ []) ∧
    mapGet (queueEdit initState "a" "v" (okFns 1)).1.queues "a" ≠ none :=
  ⟨c8_lane_lifecycle.1 initState ⟨[], rfl⟩ "a",
   c8_lane_lifecycle.2 initState ⟨[], rfl⟩ "a" "v" (okFns 1)⟩

theorem sum_len_split (l : List (String × List QueueItem))
    (h : ∀ e ∈ l, e.2 ≠ []) :
    (l.map (fun e => e.2.length)).sum =
      l.length + (l.map (fun e => (e.2.drop 1).length)).sum := by
  induction l with
  | nil => simp
  | cons e rest ih =>
    have he := h e (List.mem_cons_self _ _)
    have hlen : e.2.length = 1 + (e.2.drop 1).length := by
      cases hcase : e.2 with
      | nil => exact absurd hcase he
      | cons x t =>
        simp only [List.length_cons, List.drop_succ_cons, List.drop_zero]
        omega
    simp only [List.map_cons, List.sum_cons, List.length_cons]
    rw [ih (fun e2 he2 => h e2 (List.mem_cons_of_mem _ he2)), hlen]
    ring

/-- C9 counterexample.  With one operation in flight and none waiting,
`getStatus` reports key "a" among the queued files and a total of 1
pending operation, although no key has a non-empty waiting slot and the
waiting total is 0 — the introspection call counts in-flight operations,
contrary to the claim. -/
theorem c9_counterexample :
    getStatus c9state = ⟨["a"], ["a"], 1⟩ ∧
    waitingOps c9state "a" = [] ∧
    inFlightOps c9state "a" = [⟨0, ⟨"a", "v", 0, 0⟩⟩] := by decide

/-- C9 amended.  In every reachable state, `getStatus` returns the keys
with at least one operation — waiting *or in flight* —, the keys whose
drain coroutine is active, and the total number of queued operations
*including* the in-flight head of every lane: the total equals the number
of lanes (each contributing its in-flight head) plus the number of waiting
operations. -/
theorem c9_amended_status (s : FileSyncQueue) (hs : Reachable s) :
    (∀ path, path ∈ (getStatus s).queuedFiles ↔ laneOps s path ≠ []) ∧
    (∀ path, path ∈ (getStatus s).processingFiles ↔
      (mapGet s.drains path).isSome = true) ∧
    (getStatus s).totalPendingOperations =
      s.queues.length +
        (s.queues.map (fun e => (e.2.drop 1).length)).sum := by
  have h := reachable_inv s hs
  refine ⟨?_, ?_, ?_⟩
  · intro path
    constructor
    · intro hmem
      have h1 : (mapGet s.queues path).isSome = true := by
        rw [mapGet_isSome_iff]
        simpa [getStatus] using hmem
      obtain ⟨q, hq⟩ := Option.isSome_iff_exists.mp h1
      have hqn := h.lane_nonempty path q (mapGet_mem _ _ _ hq)
      simp [laneOps, hq, hqn]
    · intro hne
      have h1 : (mapGet s.queues path).isSome = true := by
        cases hq : mapGet s.queues path with
        | none => rw [laneOps, hq] at hne; simp at hne
        | some q => rfl
      simpa [getStatus] using (mapGet_isSome_iff s.queues path).mp h1
  · intro path
    constructor
    · intro hmem
      simp only [getStatus, List.mem_map, List.mem_filter] at hmem
      obtain ⟨⟨k, b⟩, ⟨hmem2, hb⟩, rfl⟩ := hmem
      have h1 : (mapGet s.processing k).isSome = true := by
        rw [mapGet_isSome_iff]
        exact List.mem_map.mpr ⟨(k, b), hmem2, rfl⟩
      by_cases hdd : (mapGet s.drains k).isSome = true
      · exact hdd
      · exfalso
        have h2 := h.proc_drain k
        rw [if_neg hdd] at h2
        rw [h2] at h1
        simp at h1
    · intro hdd
      obtain ⟨d, hd⟩ := Option.isSome_iff_exists.mp hdd
      have hp := h.proc_true hd
      have hmem := mapGet_mem _ _ _ hp
      simp only [getStatus, List.mem_map, List.mem_filter]
      exact ⟨(path, true), ⟨hmem, rfl⟩, rfl⟩
  · simp only [getStatus]
    exact sum_len_split s.queues
      (fun e he => h.lane_nonempty e.1 e.2 (by simpa using he))

/-- Witness for the amended C9 at the one-in-flight state. -/
theorem c9_witness :
    (∀ path, path ∈ (getStatus c9state).queuedFiles ↔
      laneOps c9state path ≠ []) ∧
    (∀ path, path ∈ (getStatus c9state).processingFiles ↔
      (mapGet c9state.drains path).isSome = true) ∧
    (getStatus c9state).totalPendingOperations =
      c9state.queues.length +
        (c9state.queues.map (fun e => (e.2.drop 1).length)).sum :=
  c9_amended_status c9state ⟨[Step.submit "a" "v" (okFns 1)], rfl⟩

theorem drainLoopTop_events (s : FileSyncQueue) (path : String) (fns : FnPair)
    (ev : SyncEvent) (hmem : ev ∈ (drainLoopTop s path fns).2) :
    ∃ i f p c, ev = SyncEvent.commitCall i f p c := by
  cases hl : (mapGet s.queues path).getD [] with
  | nil =>
    rw [drainLoopTop_empty s path fns hl] at hmem
    simp at hmem
  | cons a t =>
    rw [drainLoopTop_cons s path fns a t hl] at hmem
    simp only [List.mem_cons, List.not_mem_nil, or_false] at hmem
    exact ⟨_, _, _, _, hmem⟩

theorem startDrain_events (s : FileSyncQueue) (path : String) (fns : FnPair)
    (ev : SyncEvent) (hmem : ev ∈ (startDrain s path fns).2) :
    ∃ i f p c, ev = SyncEvent.commitCall i f p c := by
  simp only [startDrain] at hmem
  cases hq : mapGet s.queues path with
  | none =>
    rw [hq] at hmem
    simp at hmem
  | some q =>
    rw [hq] at hmem
    exact drainLoopTop_events _ path fns ev hmem

theorem queueEdit_events (s : FileSyncQueue) (path content : String)
    (fns : FnPair) (ev : SyncEvent)
    (hmem : ev ∈ (queueEdit s path content fns).2.1) :
    (∃ i, ev = SyncEvent.resolve i true (some (-1))) ∨
    (∃ i f p c, ev = SyncEvent.commitCall i f p c) := by
  cases hb : (mapGet s.processing path).getD false with
  | true =>
    simp only [queueEdit, hb, eq_self_iff_true, if_true] at hmem
    by_cases hql : 0 < ((mapGet s.queues path).getD []).length
    · simp only [if_pos hql] at hmem
      rw [List.mem_map] at hmem
      obtain ⟨it, hit, rfl⟩ := hmem
      exact Or.inl ⟨it.id, rfl⟩
    · simp only [if_neg hql] at hmem
      simp at hmem
  | false =>
    simp only [queueEdit, hb, Bool.false_eq_true, if_false] at hmem
    by_cases hql : 0 < ((mapGet s.queues path).getD []).length
    · simp only [if_pos hql] at hmem
      rw [List.mem_append] at hmem
      rcases hmem with hmem | hmem
      · rw [List.mem_map] at hmem
        obtain ⟨it, hit, rfl⟩ := hmem
        exact Or.inl ⟨it.id, rfl⟩
      · exact Or.inr (startDrain_events _ path fns ev hmem)
    · simp only [if_neg hql] at hmem
      rw [List.mem_append] at hmem
      rcases hmem with hmem | hmem
      · simp at hmem
      · exact Or.inr (startDrain_events _ path fns ev hmem)

/-- C10 (confirmed).  Every promise resolution emitted synchronously by a
submit call — i.e. the resolution of any operation discarded through
supersession, in the in-flight-present branch and in the
nothing-processing branch alike — carries `success = true` and the
sentinel version `-1`. -/
theorem c10_superseded_sentinel (s : FileSyncQueue) (path content : String)
    (fns : FnPair) (i : Nat) (b : Bool) (v : Option Int)
    (hmem : SyncEvent.resolve i b v ∈ (queueEdit s path content fns).2.1) :
    b = true ∧ v = some (-1) := by
  rcases queueEdit_events s path content fns _ hmem with ⟨j, hj⟩ | ⟨j, f, p, c, hj⟩
  · injection hj with h1 h2 h3
    exact ⟨h2, h3⟩
  · exact absurd hj (by simp)

/-- Witness for C10 in the nothing-processing branch. -/
theorem c10_witness :
    SyncEvent.resolve 0 true (some (-1)) ∈
      (queueEdit c10state "a" "v1" (okFns 1)).2.1 ∧
    (true = true ∧ (some (-1) : Option Int) = some (-1)) :=
  ⟨by decide,
   c10_superseded_sentinel c10state "a" "v1" (okFns 1) 0 true (some (-1))
     (by decide)⟩
